import Mathlib

/-!
# Verification of the Scrim2 match-import and stats engine

This file gives a shallow embedding of the stats-database layer of
`src/bot.js` (the `db` object: `updateTeamStats`, `removeTeamStats`,
`updatePlayerStats`, `removePlayerStats`) and of the match-import and
reconciliation engine described in the specification (row validation,
dedup index, match grouping, MVP resolution, aggregation, identity
resolution, team reconciliation, import coordination), together with
proofs of the specified properties.

JavaScript objects whose field set is dynamic (the player records, which
`updatePlayerStats` walks with `Object.keys`) are embedded as ordered
association lists of string keys to values that are either numbers or
strings.  Stores that the code reads whole and writes whole are embedded
as explicit values threaded through the functions.
-/

/-- A JavaScript value stored in a player record: a number or a string.
(The player records in `players.json` hold only these two shapes.) -/
inductive JsVal where
  | num : Int → JsVal
  | str : String → JsVal
deriving DecidableEq

/-- A JavaScript object as an ordered association list, as JSON preserves
insertion order and `Object.keys` walks keys in that order. -/
abbrev JsObj := List (String × JsVal)

/-- Property read `o[k]`: the value at the first occurrence of key `k`. -/
def objGet (o : JsObj) (k : String) : Option JsVal :=
  match o with
  | [] => none
  | kv :: rest => if kv.1 = k then some kv.2 else objGet rest k

/-- Property write `o[k] = v`: overwrite the existing key in place, or
append the key if absent (JS assignment semantics on plain objects). -/
def objSet (o : JsObj) (k : String) (v : JsVal) : JsObj :=
  match o with
  | [] => [(k, v)]
  | kv :: rest => if kv.1 = k then (k, v) :: rest else kv :: objSet rest k v

@[simp]
theorem objGet_objSet_same (o : JsObj) (k : String) (v : JsVal) :
    objGet (objSet o k v) k = some v := by
  induction o with
  | nil => simp [objGet, objSet]
  | cons kv rest ih =>
    by_cases h : kv.1 = k
    · simp [objGet, objSet, h]
    · simp [objGet, objSet, h, ih]

theorem objGet_objSet_ne (o : JsObj) (k k' : String) (v : JsVal) (hne : k' ≠ k) :
    objGet (objSet o k v) k' = objGet o k' := by
  induction o with
  | nil =>
    have hkk : ¬ k = k' := fun hh => hne hh.symm
    simp [objGet, objSet, hkk]
  | cons kv rest ih =>
    by_cases h : kv.1 = k
    · subst h
      have hkk : ¬ kv.1 = k' := fun hh => hne hh.symm
      simp [objGet, objSet, hkk]
    · by_cases h2 : kv.1 = k'
      · simp [objGet, objSet, h, h2, hne]
      · simp [objGet, objSet, h, h2, ih]

/-- `db.updatePlayerStats`' per-player stat merge, from `src/bot.js`
lines 205-211: for each key of the delta, in order, if the player has
that key with a numeric value, add the delta value to it; otherwise skip
the key. -/
def applyStatsAdd (p : JsObj) (stats : List (String × Int)) : JsObj :=
  match stats with
  | [] => p
  | kv :: rest =>
    match objGet p kv.1 with
    | some (JsVal.num n) => applyStatsAdd (objSet p kv.1 (JsVal.num (n + kv.2))) rest
    | _ => applyStatsAdd p rest

/-- `db.removePlayerStats`' per-player stat removal, from `src/bot.js`
lines 230-235: like the additive merge but subtracting, clamped at 0 by
`Math.max(0, ...)`. -/
def applyStatsSub (p : JsObj) (stats : List (String × Int)) : JsObj :=
  match stats with
  | [] => p
  | kv :: rest =>
    match objGet p kv.1 with
    | some (JsVal.num n) => applyStatsSub (objSet p kv.1 (JsVal.num (max 0 (n - kv.2)))) rest
    | _ => applyStatsSub p rest

/-- The `findIndex(p => p.discordId === discordId)` predicate of
`src/bot.js` lines 199 and 224. -/
def isPlayerFor (discordId : String) (p : JsObj) : Bool :=
  objGet p "discordId" = some (JsVal.str discordId)

/-- `players.findIndex` followed by an in-place mutation of the found
element and a whole-array write-back: returns `none` when no element
satisfies the predicate (the `-1` case, which the callers turn into a
thrown error before any write). -/
def updateFirstWhere (pred : JsObj → Bool) (f : JsObj → JsObj) :
    List JsObj → Option (List JsObj)
  | [] => none
  | p :: ps =>
    if pred p then some (f p :: ps)
    else (updateFirstWhere pred f ps).map (fun qs => p :: qs)

/-- `db.updatePlayerStats` (`src/bot.js` lines 197-219): find the player
by Discord id (throw `Player not found` if absent, before any write),
add each numeric delta field present on the player, refresh `updatedAt`
to the current time string, and write the store back. -/
def updatePlayerStats (players : List JsObj) (discordId : String)
    (stats : List (String × Int)) (now : String) : Except String (List JsObj) :=
  match updateFirstWhere (isPlayerFor discordId)
      (fun p => objSet (applyStatsAdd p stats) "updatedAt" (JsVal.str now)) players with
  | none => Except.error "Player not found"
  | some ps => Except.ok ps

/-- `db.removePlayerStats` (`src/bot.js` lines 222-244): as
`updatePlayerStats` but subtracting each delta field with a clamp at 0. -/
def removePlayerStats (players : List JsObj) (discordId : String)
    (stats : List (String × Int)) (now : String) : Except String (List JsObj) :=
  match updateFirstWhere (isPlayerFor discordId)
      (fun p => objSet (applyStatsSub p stats) "updatedAt" (JsVal.str now)) players with
  | none => Except.error "Player not found"
  | some ps => Except.ok ps

/-- A durable per-team record `{wins, losses}` as stored in
`team-stats.json`. -/
structure TeamRecord where
  wins : Int
  losses : Int
deriving DecidableEq

/-- The `team-stats.json` document: a JSON object from team name to
record, kept in insertion order. -/
abbrev TeamStats := List (String × TeamRecord)

/-- Property read `teamStats[teamName]` on the team-stats document. -/
def lookupTeam (ts : TeamStats) (name : String) : Option TeamRecord :=
  match ts with
  | [] => none
  | kv :: rest => if kv.1 = name then some kv.2 else lookupTeam rest name

/-- Property write `teamStats[teamName] = r` on the team-stats document. -/
def setTeam (ts : TeamStats) (name : String) (r : TeamRecord) : TeamStats :=
  match ts with
  | [] => [(name, r)]
  | kv :: rest => if kv.1 = name then (name, r) :: rest else kv :: setTeam rest name r

@[simp]
theorem lookupTeam_setTeam_same (ts : TeamStats) (name : String) (r : TeamRecord) :
    lookupTeam (setTeam ts name r) name = some r := by
  induction ts with
  | nil => simp [lookupTeam, setTeam]
  | cons kv rest ih =>
    by_cases h : kv.1 = name
    · simp [lookupTeam, setTeam, h]
    · simp [lookupTeam, setTeam, h, ih]

theorem lookupTeam_setTeam_ne (ts : TeamStats) (name n' : String) (r : TeamRecord)
    (hne : n' ≠ name) : lookupTeam (setTeam ts name r) n' = lookupTeam ts n' := by
  induction ts with
  | nil =>
    have hn : ¬ name = n' := fun hh => hne hh.symm
    simp [lookupTeam, setTeam, hn]
  | cons kv rest ih =>
    by_cases h : kv.1 = name
    · subst h
      have hn : ¬ kv.1 = n' := fun hh => hne hh.symm
      simp [lookupTeam, setTeam, hn]
    · by_cases h2 : kv.1 = n'
      · simp [lookupTeam, setTeam, h, h2, hne]
      · simp [lookupTeam, setTeam, h, h2, ih]

/-- `db.updateTeamStats` (`src/bot.js` lines 117-133): initialise a
missing team to `{wins: 0, losses: 0}`, add the (possibly negative)
`wins`/`losses` arguments, clamp both totals at 0 with `Math.max`, write
the document back and return the updated record. -/
def updateTeamStats (ts : TeamStats) (name : String) (wins losses : Int) :
    TeamStats × TeamRecord :=
  let cur := (lookupTeam ts name).getD ⟨0, 0⟩
  let upd : TeamRecord := ⟨max 0 (cur.wins + wins), max 0 (cur.losses + losses)⟩
  (setTeam ts name upd, upd)

/-- `db.removeTeamStats` (`src/bot.js` lines 136-152): as
`updateTeamStats` but subtracting the arguments, with the same clamp. -/
def removeTeamStats (ts : TeamStats) (name : String) (wins losses : Int) :
    TeamStats × TeamRecord :=
  let cur := (lookupTeam ts name).getD ⟨0, 0⟩
  let upd : TeamRecord := ⟨max 0 (cur.wins - wins), max 0 (cur.losses - losses)⟩
  (setTeam ts name upd, upd)

/-- Modelled from the spec: one parsed `MatchRow` (spec section 3) —
this record shape and its import pipeline are not under `src/`; only the
`db` persistence layer they call is. -/
structure MatchRow where
  externalPlayerName : String
  teamColor : String
  goals : Int
  assists : Int
  saves : Int
  shots : Int
  demos : Int
  score : Int
  result : String
  matchTimestamp : String
  externalPlayerId : String
deriving DecidableEq

/-- JavaScript `String.prototype.toLowerCase` on the ASCII range, written
with structural recursion so that concrete instances reduce. -/
def jsToLower (s : String) : String := ⟨s.data.map Char.toLower⟩

/-- Modelled from the spec: a `result` field counts as a win when it is
a case-insensitive `WIN` (spec section 4.1). -/
def isWinResult (r : String) : Bool := (jsToLower r) = "win"

/-- Modelled from the spec: a `result` field counts as a loss when it is
a case-insensitive `LOSS` (spec section 4.1). -/
def isLossResult (r : String) : Bool := (jsToLower r) = "loss"

/-- Modelled from the spec: the two recognised team colours of the
export format (spec sections 3 and 8 use Orange and Blue). -/
def recognizedColor (c : String) : Bool :=
  (jsToLower c) = "orange" || (jsToLower c) = "blue"

/-- Modelled from the spec: the batched validation pass of the RowParser
(spec section 4.1): a parsed row is flagged when its result is not a
case-insensitive WIN/LOSS, its team colour is unrecognised, or a
counting stat is negative. -/
def rowValid (r : MatchRow) : Bool :=
  (isWinResult r.result || isLossResult r.result) &&
  recognizedColor r.teamColor &&
  (0 ≤ r.goals) && (0 ≤ r.assists) && (0 ≤ r.saves) &&
  (0 ≤ r.shots) && (0 ≤ r.demos)

/-- Modelled from the spec: the DedupIndex key
`timestamp + "_" + playerId` (spec section 4.2). -/
def dedupKey (r : MatchRow) : String :=
  r.matchTimestamp ++ "_" ++ r.externalPlayerId

/-- Result of the dedup filtering pass over one batch. -/
structure DedupResult where
  admitted : List MatchRow
  dedup : List String
  duplicates : Nat
deriving DecidableEq

/-- Modelled from the spec: the per-row dedup filter (spec section 4.2):
rows are processed in order; a row whose key is already present is
counted as a duplicate and excluded, a fresh row is admitted and its key
is marked synchronously with admission. -/
def dedupFilter (dedup : List String) : List MatchRow → DedupResult
  | [] => ⟨[], dedup, 0⟩
  | r :: rs =>
    if dedupKey r ∈ dedup then
      let res := dedupFilter dedup rs
      ⟨res.admitted, res.dedup, res.duplicates + 1⟩
    else
      let res := dedupFilter (dedupKey r :: dedup) rs
      ⟨r :: res.admitted, res.dedup, res.duplicates⟩

/-- Modelled from the spec: the MatchGrouper (spec section 4.3):
partition admitted rows by exact equality of the opaque
`matchTimestamp` token, preserving encounter order. -/
def insertGroup (gs : List (String × List MatchRow)) (r : MatchRow) :
    List (String × List MatchRow) :=
  match gs with
  | [] => [(r.matchTimestamp, [r])]
  | (t, rs) :: rest =>
    if t = r.matchTimestamp then (t, rs ++ [r]) :: rest
    else (t, rs) :: insertGroup rest r

/-- Modelled from the spec: grouping of a whole batch (spec section 4.3). -/
def groupByTimestamp (rows : List MatchRow) : List (String × List MatchRow) :=
  rows.foldl insertGroup []

/-- Modelled from the spec: the left-to-right reduction of the
MvpResolver (spec section 4.4), carrying the best winning row so far and
replacing it only on a strictly greater score. -/
def mvpPick (best : Option MatchRow) : List MatchRow → Option MatchRow
  | [] => best
  | r :: rs =>
    if isWinResult r.result then
      match best with
      | none => mvpPick (some r) rs
      | some b => if b.score < r.score then mvpPick (some r) rs else mvpPick (some b) rs
    else mvpPick best rs

/-- Modelled from the spec: the MvpResolver (spec section 4.4): among
the rows of one group whose result is WIN, the first row attaining the
maximum score; `none` when the group has no winning row. -/
def mvpResolve (g : List MatchRow) : Option MatchRow := mvpPick none g

/-- Modelled from the spec: the per-player accumulator
`AggregatedPlayerStat` (spec section 3). -/
structure AggStat where
  totalGames : Int
  totalGoals : Int
  totalAssists : Int
  totalSaves : Int
  totalShots : Int
  totalDemos : Int
  totalWins : Int
  totalLosses : Int
  totalMvps : Int
  lastSeen : String
  externalPlayerId : String
deriving DecidableEq

/-- Modelled from the spec: folding one row into an accumulator (spec
section 4.5): one game per row, counting stats summed, win/loss tallied
from the row's result, `lastSeen` updated to the maximum timestamp. -/
def foldRowInto (a : AggStat) (r : MatchRow) : AggStat :=
  { totalGames := a.totalGames + 1
    totalGoals := a.totalGoals + r.goals
    totalAssists := a.totalAssists + r.assists
    totalSaves := a.totalSaves + r.saves
    totalShots := a.totalShots + r.shots
    totalDemos := a.totalDemos + r.demos
    totalWins := a.totalWins + (if isWinResult r.result then 1 else 0)
    totalLosses := a.totalLosses + (if isLossResult r.result then 1 else 0)
    totalMvps := a.totalMvps
    lastSeen := max a.lastSeen r.matchTimestamp
    externalPlayerId := r.externalPlayerId }

/-- Modelled from the spec: the empty accumulator a first row for a name
starts from (spec section 4.5). -/
def emptyAgg : AggStat := ⟨0, 0, 0, 0, 0, 0, 0, 0, 0, "", ""⟩

/-- The run's aggregate map, keyed by lowercased external player name. -/
abbrev AggMap := List (String × AggStat)

/-- Property read on the aggregate map. -/
def lookupAgg (m : AggMap) (k : String) : Option AggStat :=
  match m with
  | [] => none
  | kv :: rest => if kv.1 = k then some kv.2 else lookupAgg rest k

/-- Property write on the aggregate map. -/
def setAgg (m : AggMap) (k : String) (a : AggStat) : AggMap :=
  match m with
  | [] => [(k, a)]
  | kv :: rest => if kv.1 = k then (k, a) :: rest else kv :: setAgg rest k a

/-- Modelled from the spec: the PlayerAggregator's row-folding pass
(spec section 4.5), keyed by lowercased external player name. -/
def aggregateRows (rows : List MatchRow) : AggMap :=
  rows.foldl
    (fun m r =>
      let k := (jsToLower r.externalPlayerName)
      setAgg m k (foldRowInto ((lookupAgg m k).getD emptyAgg) r))
    []

/-- Modelled from the spec: applying the MVP credits after all rows are
folded (spec sections 4.4 and 4.5): each winner row bumps `totalMvps`
for its lowercased player name; a winner name absent from the aggregate
map is silently dropped. -/
def applyMvps (m : AggMap) (winners : List MatchRow) : AggMap :=
  winners.foldl
    (fun acc w =>
      let k := (jsToLower w.externalPlayerName)
      match lookupAgg acc k with
      | none => acc
      | some a => setAgg acc k { a with totalMvps := a.totalMvps + 1 })
    m

/-- Modelled from the spec: a roster account the IdentityResolver can
match against (spec section 4.6): a canonical account id plus the
display name and user name visible to case-insensitive matching. -/
structure Account where
  accountId : String
  displayName : String
  username : String
deriving DecidableEq

/-- Modelled from the spec: case-insensitive exact roster match, first
match wins (spec section 4.6, step 2). -/
def rosterMatch (roster : List Account) (name : String) : Option Account :=
  roster.find? (fun a =>
    (jsToLower a.displayName) = (jsToLower name) || (jsToLower a.username) = (jsToLower name))

/-- Property read on the explicit NameMapping table, keyed by lowercased
external name. -/
def lookupMapping (mappings : List (String × String)) (k : String) : Option String :=
  match mappings with
  | [] => none
  | kv :: rest => if kv.1 = k then some kv.2 else lookupMapping rest k

/-- Modelled from the spec: the IdentityResolver (spec section 4.6): an
explicit mapping for the lowercased name whose target account resolves
to a live roster identity wins; otherwise (no mapping, or a dangling
mapping target) fall through to the case-insensitive roster match;
otherwise unmatched (`none`). -/
def resolveIdentity (mappings : List (String × String)) (roster : List Account)
    (name : String) : Option Account :=
  match lookupMapping mappings (jsToLower name) with
  | some target =>
    match roster.find? (fun a => a.accountId = target) with
    | some acct => some acct
    | none => rosterMatch roster name
  | none => rosterMatch roster name

/-- Modelled from the spec: the run-constant colour-to-team assignment
supplied by the caller (spec section 4.7). -/
abbrev ColorMap := List (String × String)

/-- Property read on the colour-to-team assignment. -/
def lookupColor (cm : ColorMap) (c : String) : Option String :=
  match cm with
  | [] => none
  | kv :: rest => if kv.1 = c then some kv.2 else lookupColor rest c

/-- A per-run already-credited key `(matchTimestamp, assignedTeam,
result)` of the TeamReconciler (spec section 4.7). -/
abbrev CreditKey := String × String × String

/-- Modelled from the spec: one TeamReconciler step (spec section 4.7):
resolve the row's colour to its assigned team; if the
`(timestamp, team, result)` key is not yet credited this run, mark it
and apply the additive team-record update (`db.updateTeamStats`) with a
single win or loss according to the row's result. -/
def reconcileStep (cm : ColorMap) (acc : TeamStats × List CreditKey) (r : MatchRow) :
    TeamStats × List CreditKey :=
  match lookupColor cm r.teamColor with
  | none => acc
  | some team =>
    let key : CreditKey := (r.matchTimestamp, team, (jsToLower r.result))
    if key ∈ acc.2 then acc
    else
      let ts := if isWinResult r.result then (updateTeamStats acc.1 team 1 0).1
                else (updateTeamStats acc.1 team 0 1).1
      (ts, key :: acc.2)

/-- Modelled from the spec: the TeamReconciler over the run's admitted
rows (spec section 4.7), starting from an empty per-run credited set. -/
def teamReconcile (cm : ColorMap) (teams : TeamStats) (rows : List MatchRow) : TeamStats :=
  (rows.foldl (reconcileStep cm) (teams, [])).1

/-- The durable state the import engine mutates: the dedup index, the
players store (`players.json`, the stat ledgers) and the team records
(`team-stats.json`). -/
structure EngineState where
  dedup : List String
  players : List JsObj
  teams : TeamStats
deriving DecidableEq

/-- The run configuration: explicit name mappings, the roster, the
colour-to-team assignment and the wall-clock string used for
`updatedAt`. -/
structure ImportConfig where
  mappings : List (String × String)
  roster : List Account
  colorToTeam : ColorMap
  now : String

/-- Modelled from the spec: the stat delta one resolved player's
aggregate contributes to its ledger via `db.updatePlayerStats` (spec
sections 3 and 4.8). -/
def statsDelta (a : AggStat) : List (String × Int) :=
  [("gamesPlayed", a.totalGames), ("goals", a.totalGoals),
   ("assists", a.totalAssists), ("saves", a.totalSaves),
   ("shots", a.totalShots), ("demos", a.totalDemos), ("mvps", a.totalMvps)]

/-- Modelled from the spec: the Persisting stage for ledgers (spec
sections 4.6 and 4.8): resolve each aggregated name; unmatched names are
not persisted; matched names are applied with `db.updatePlayerStats`,
and a per-account failure is collected without aborting the run. -/
def persistLedgers (cfg : ImportConfig) (players : List JsObj) (agg : AggMap) :
    List JsObj × List String :=
  agg.foldl
    (fun acc entry =>
      match resolveIdentity cfg.mappings cfg.roster entry.1 with
      | none => acc
      | some acct =>
        match updatePlayerStats acc.1 acct.accountId (statsDelta entry.2) cfg.now with
        | Except.ok ps => (ps, acc.2)
        | Except.error e => (acc.1, acc.2 ++ [e]))
    (players, [])

/-- The ephemeral `ImportRun` summary (spec section 3). -/
structure ImportSummary where
  rowsProcessed : Nat
  duplicates : Nat
  aborted : Bool
  errors : List String
deriving DecidableEq

/-- Modelled from the spec: the ImportCoordinator (spec section 4.8):
validate the whole batch and abort with no state change if any parsed
row fails validation; otherwise filter through the dedup index, group by
timestamp, resolve MVPs, aggregate, persist ledgers and reconcile team
records, producing the run summary. -/
def importRun (cfg : ImportConfig) (st : EngineState) (rows : List MatchRow) :
    EngineState × ImportSummary :=
  if rows.all rowValid then
    let dres := dedupFilter st.dedup rows
    let groups := groupByTimestamp dres.admitted
    let winners := groups.filterMap (fun g => mvpResolve g.2)
    let agg := applyMvps (aggregateRows dres.admitted) winners
    let pres := persistLedgers cfg st.players agg
    let teams := teamReconcile cfg.colorToTeam st.teams dres.admitted
    (⟨dres.dedup, pres.1, teams⟩,
     ⟨rows.length, dres.duplicates, false, pres.2⟩)
  else
    (st, ⟨rows.length, 0, true, []⟩)

theorem updateFirstWhere_eq_none_iff (pred : JsObj → Bool) (f : JsObj → JsObj)
    (l : List JsObj) :
    updateFirstWhere pred f l = none ↔ ∀ p ∈ l, pred p = false := by
  induction l with
  | nil => simp [updateFirstWhere]
  | cons p ps ih =>
    by_cases h : pred p = true
    · simp [updateFirstWhere, h]
    · have hf : pred p = false := by
        cases hp : pred p
        · rfl
        · exact absurd hp h
      constructor
      · intro hnone q hq
        rcases List.mem_cons.mp hq with rfl | hq
        · exact hf
        · have : updateFirstWhere pred f ps = none := by
            by_contra hne
            rcases Option.ne_none_iff_exists.mp hne with ⟨qs, hqs⟩
            rw [updateFirstWhere, if_neg h, ← hqs] at hnone
            simp at hnone
          exact (ih.mp this) q hq
      · intro hall
        rw [updateFirstWhere, if_neg h, ih.mpr fun q hq => hall q (List.mem_cons_of_mem p hq)]
        rfl

/-- C3: after `updateTeamStats` or `removeTeamStats` completes, the
stored wins and losses of the named team are both non-negative (the
`Math.max(0, ...)` clamp), and a previously unknown team name is
initialised to `{wins: 0, losses: 0}` before the additive or
subtractive update is applied. -/
theorem teamStats_nonneg_and_default_init (ts : TeamStats) (name : String) (w l : Int) :
    0 ≤ (updateTeamStats ts name w l).2.wins ∧
    0 ≤ (updateTeamStats ts name w l).2.losses ∧
    lookupTeam (updateTeamStats ts name w l).1 name = some (updateTeamStats ts name w l).2 ∧
    0 ≤ (removeTeamStats ts name w l).2.wins ∧
    0 ≤ (removeTeamStats ts name w l).2.losses ∧
    lookupTeam (removeTeamStats ts name w l).1 name = some (removeTeamStats ts name w l).2 ∧
    (lookupTeam ts name = none →
      (updateTeamStats ts name w l).2 = ⟨max 0 (0 + w), max 0 (0 + l)⟩ ∧
      (removeTeamStats ts name w l).2 = ⟨max 0 (0 - w), max 0 (0 - l)⟩) := by
  refine ⟨le_max_left 0 _, le_max_left 0 _, ?_, le_max_left 0 _, le_max_left 0 _, ?_, ?_⟩
  · simp [updateTeamStats]
  · simp [removeTeamStats]
  · intro hnone
    constructor
    · simp [updateTeamStats, hnone]
    · simp [removeTeamStats, hnone]

theorem teamStats_nonneg_and_default_init_witness :
    lookupTeam ([("A-Team", ⟨4, 2⟩)] : TeamStats) "C-Team" = none ∧
    (0 ≤ (updateTeamStats [("A-Team", ⟨4, 2⟩)] "C-Team" (-3) 2).2.wins ∧
     0 ≤ (updateTeamStats [("A-Team", ⟨4, 2⟩)] "C-Team" (-3) 2).2.losses ∧
     lookupTeam (updateTeamStats [("A-Team", ⟨4, 2⟩)] "C-Team" (-3) 2).1 "C-Team" =
       some (updateTeamStats [("A-Team", ⟨4, 2⟩)] "C-Team" (-3) 2).2 ∧
     0 ≤ (removeTeamStats [("A-Team", ⟨4, 2⟩)] "C-Team" (-3) 2).2.wins ∧
     0 ≤ (removeTeamStats [("A-Team", ⟨4, 2⟩)] "C-Team" (-3) 2).2.losses ∧
     lookupTeam (removeTeamStats [("A-Team", ⟨4, 2⟩)] "C-Team" (-3) 2).1 "C-Team" =
       some (removeTeamStats [("A-Team", ⟨4, 2⟩)] "C-Team" (-3) 2).2 ∧
     (lookupTeam ([("A-Team", ⟨4, 2⟩)] : TeamStats) "C-Team" = none →
       (updateTeamStats [("A-Team", ⟨4, 2⟩)] "C-Team" (-3) 2).2 = ⟨max 0 (0 + (-3)), max 0 (0 + 2)⟩ ∧
       (removeTeamStats [("A-Team", ⟨4, 2⟩)] "C-Team" (-3) 2).2 = ⟨max 0 (0 - (-3)), max 0 (0 - 2)⟩)) :=
  ⟨by decide, teamStats_nonneg_and_default_init [("A-Team", ⟨4, 2⟩)] "C-Team" (-3) 2⟩

/-- C10: `updatePlayerStats` and `removePlayerStats` fail atomically on
an unknown player: when no player in the store matches the Discord id,
both operations throw `Player not found` (the embedding's
`Except.error`, which carries no written store, matching the throw that
precedes any write-back); when a matching player exists, neither
operation throws. -/
theorem playerStats_unknown_player_atomic (players : List JsObj) (id now : String)
    (stats stats2 : List (String × Int)) :
    ((∀ p ∈ players, isPlayerFor id p = false) →
      updatePlayerStats players id stats now = Except.error "Player not found" ∧
      removePlayerStats players id stats2 now = Except.error "Player not found") ∧
    ((∃ p ∈ players, isPlayerFor id p = true) →
      (∃ ps, updatePlayerStats players id stats now = Except.ok ps) ∧
      (∃ ps, removePlayerStats players id stats2 now = Except.ok ps)) := by
  constructor
  · intro hnone
    constructor
    · rw [updatePlayerStats, (updateFirstWhere_eq_none_iff _ _ _).mpr hnone]
    · rw [removePlayerStats, (updateFirstWhere_eq_none_iff _ _ _).mpr hnone]
  · intro hsome
    have hup : ∀ (f : JsObj → JsObj),
        ∃ qs, updateFirstWhere (isPlayerFor id) f players = some qs := by
      intro f
      cases hu : updateFirstWhere (isPlayerFor id) f players with
      | none =>
        rcases hsome with ⟨p, hp, hpt⟩
        have := (updateFirstWhere_eq_none_iff (isPlayerFor id) f players).mp hu p hp
        rw [hpt] at this
        cases this
      | some qs => exact ⟨qs, rfl⟩
    constructor
    · rcases hup (fun p => objSet (applyStatsAdd p stats) "updatedAt" (JsVal.str now)) with ⟨qs, hqs⟩
      exact ⟨qs, by rw [updatePlayerStats, hqs]⟩
    · rcases hup (fun p => objSet (applyStatsSub p stats2) "updatedAt" (JsVal.str now)) with ⟨qs, hqs⟩
      exact ⟨qs, by rw [removePlayerStats, hqs]⟩

theorem playerStats_unknown_player_atomic_witness :
    ((∀ p ∈ ([[("discordId", JsVal.str "id9")]] : List JsObj), isPlayerFor "id1" p = false) ∧
     updatePlayerStats [[("discordId", JsVal.str "id9")]] "id1" [("goals", 2)] "t" =
       Except.error "Player not found" ∧
     removePlayerStats [[("discordId", JsVal.str "id9")]] "id1" [("goals", 2)] "t" =
       Except.error "Player not found") ∧
    ((∃ p ∈ ([[("discordId", JsVal.str "id1"), ("goals", JsVal.num 3)]] : List JsObj),
        isPlayerFor "id1" p = true) ∧
     (∃ ps, updatePlayerStats [[("discordId", JsVal.str "id1"), ("goals", JsVal.num 3)]]
        "id1" [("goals", 2)] "t" = Except.ok ps) ∧
     (∃ ps, removePlayerStats [[("discordId", JsVal.str "id1"), ("goals", JsVal.num 3)]]
        "id1" [("goals", 2)] "t" = Except.ok ps)) := by
  constructor
  · refine ⟨by decide, ?_⟩
    exact (playerStats_unknown_player_atomic [[("discordId", JsVal.str "id9")]]
      "id1" "t" [("goals", 2)] [("goals", 2)]).1 (by decide)
  · refine ⟨by decide, ?_⟩
    exact (playerStats_unknown_player_atomic
      [[("discordId", JsVal.str "id1"), ("goals", JsVal.num 3)]]
      "id1" "t" [("goals", 2)] [("goals", 2)]).2 (by decide)

/-- C5: validation abort is atomic: when at least one parsed row of the
batch fails validation (result not a case-insensitive WIN/LOSS,
unrecognised team colour, or a negative counting stat), the whole import
run aborts and the engine state — dedup index, every ledger and every
team record — is exactly the state before the run. -/
theorem importRun_validation_abort (cfg : ImportConfig) (st : EngineState)
    (rows : List MatchRow) (hbad : ∃ r ∈ rows, rowValid r = false) :
    (importRun cfg st rows).1 = st ∧ (importRun cfg st rows).2.aborted = true := by
  rcases hbad with ⟨r, hr, hrf⟩
  have hall : ¬ rows.all rowValid = true := by
    intro h
    have := List.all_eq_true.mp h r hr
    rw [hrf] at this
    cases this
  rw [importRun, if_neg hall]
  exact ⟨rfl, rfl⟩

theorem importRun_validation_abort_witness :
    (∃ r ∈ [(⟨"A", "Orange", -1, 0, 0, 0, 0, 390, "WIN", "t1", "p1"⟩ : MatchRow)],
      rowValid r = false) ∧
    (importRun ⟨[], [], [("Orange", "Team1")], "now"⟩ ⟨[], [], []⟩
      [⟨"A", "Orange", -1, 0, 0, 0, 0, 390, "WIN", "t1", "p1"⟩]).1 = ⟨[], [], []⟩ ∧
    (importRun ⟨[], [], [("Orange", "Team1")], "now"⟩ ⟨[], [], []⟩
      [⟨"A", "Orange", -1, 0, 0, 0, 0, 390, "WIN", "t1", "p1"⟩]).2.aborted = true :=
  ⟨by decide, importRun_validation_abort ⟨[], [], [("Orange", "Team1")], "now"⟩ ⟨[], [], []⟩
    [⟨"A", "Orange", -1, 0, 0, 0, 0, 390, "WIN", "t1", "p1"⟩] (by decide)⟩

/-- C6: identity resolution priority: an explicit NameMapping entry
under the lowercased external name whose target resolves to a live
roster identity always wins — the resolver returns the mapped account,
never the roster auto-match; the roster match is consulted only when no
mapping exists or the mapping target is dangling. -/
theorem resolveIdentity_mapping_priority (mappings : List (String × String))
    (roster : List Account) (name target : String) (acct : Account) :
    (lookupMapping mappings (jsToLower name) = some target →
      roster.find? (fun a => a.accountId = target) = some acct →
      resolveIdentity mappings roster name = some acct) ∧
    (lookupMapping mappings (jsToLower name) = none →
      resolveIdentity mappings roster name = rosterMatch roster name) ∧
    (lookupMapping mappings (jsToLower name) = some target →
      roster.find? (fun a => a.accountId = target) = none →
      resolveIdentity mappings roster name = rosterMatch roster name) := by
  refine ⟨fun hm hf => ?_, fun hm => ?_, fun hm hf => ?_⟩
  · simp [resolveIdentity, hm, hf]
  · simp [resolveIdentity, hm]
  · simp [resolveIdentity, hm, hf]

theorem resolveIdentity_mapping_priority_witness :
    lookupMapping [("x", "id1")] ((jsToLower "X")) = some "id1" ∧
    List.find? (fun a => a.accountId = "id1")
      [(⟨"id2", "X", "xuser"⟩ : Account), ⟨"id1", "Mapped", "mapped"⟩] =
      some ⟨"id1", "Mapped", "mapped"⟩ ∧
    rosterMatch [(⟨"id2", "X", "xuser"⟩ : Account), ⟨"id1", "Mapped", "mapped"⟩] "X" =
      some ⟨"id2", "X", "xuser"⟩ ∧
    resolveIdentity [("x", "id1")]
      [(⟨"id2", "X", "xuser"⟩ : Account), ⟨"id1", "Mapped", "mapped"⟩] "X" =
      some ⟨"id1", "Mapped", "mapped"⟩ :=
  ⟨by decide, by decide, by decide,
    (resolveIdentity_mapping_priority [("x", "id1")]
      [⟨"id2", "X", "xuser"⟩, ⟨"id1", "Mapped", "mapped"⟩] "X" "id1"
      ⟨"id1", "Mapped", "mapped"⟩).1 (by decide) (by decide)⟩

theorem mvpPick_no_win (g : List MatchRow) (hno : ∀ r ∈ g, isWinResult r.result = false) :
    mvpPick none g = none := by
  induction g with
  | nil => rfl
  | cons r rs ih =>
    have hr := hno r (List.mem_cons_self r rs)
    rw [mvpPick, if_neg (by rw [hr]; exact fun h => nomatch h)]
    exact ih fun q hq => hno q (List.mem_cons_of_mem r hq)

theorem mvpPick_skip (l0 g : List MatchRow) (hno : ∀ r ∈ l0, isWinResult r.result = false) :
    mvpPick none (l0 ++ g) = mvpPick none g := by
  induction l0 with
  | nil => rfl
  | cons r rs ih =>
    have hr := hno r (List.mem_cons_self r rs)
    rw [List.cons_append, mvpPick, if_neg (by rw [hr]; exact fun h => nomatch h)]
    exact ih fun q hq => hno q (List.mem_cons_of_mem r hq)

theorem exists_first_win (g : List MatchRow) (hw : ∃ r ∈ g, isWinResult r.result = true) :
    ∃ l0 w rs, g = l0 ++ w :: rs ∧ (∀ q ∈ l0, isWinResult q.result = false) ∧
      isWinResult w.result = true := by
  induction g with
  | nil => rcases hw with ⟨r, hr, _⟩; cases hr
  | cons r rs ih =>
    cases hr : isWinResult r.result with
    | true => exact ⟨[], r, rs, rfl, by simp, hr⟩
    | false =>
      have hw' : ∃ q ∈ rs, isWinResult q.result = true := by
        rcases hw with ⟨q, hq, hqt⟩
        rcases List.mem_cons.mp hq with rfl | hq
        · rw [hr] at hqt; cases hqt
        · exact ⟨q, hq, hqt⟩
      rcases ih hw' with ⟨l0, w, ws, hsplit, hl0, hww⟩
      refine ⟨r :: l0, w, ws, by simp [hsplit], ?_, hww⟩
      intro q hq
      rcases List.mem_cons.mp hq with rfl | hq
      · exact hr
      · exact hl0 q hq

theorem mvpPick_some_spec (g : List MatchRow) (b : MatchRow) :
    ∃ m, mvpPick (some b) g = some m ∧ b.score ≤ m.score ∧
      (∀ q ∈ g, isWinResult q.result = true → q.score ≤ m.score) ∧
      (m = b ∨ ∃ pre post, g = pre ++ m :: post ∧ isWinResult m.result = true ∧
        b.score < m.score ∧ ∀ q ∈ pre, isWinResult q.result = true → q.score < m.score) := by
  induction g generalizing b with
  | nil => exact ⟨b, rfl, le_refl _, by simp, Or.inl rfl⟩
  | cons r rs ih =>
    cases hr : isWinResult r.result with
    | false =>
      rcases ih b with ⟨m, hm, hbm, hall, hdisj⟩
      refine ⟨m, ?_, hbm, ?_, ?_⟩
      · rw [mvpPick, if_neg (by rw [hr]; exact fun h => nomatch h)]
        exact hm
      · intro q hq hqt
        rcases List.mem_cons.mp hq with rfl | hq
        · rw [hr] at hqt; cases hqt
        · exact hall q hq hqt
      · rcases hdisj with hmb | ⟨pre, post, hsplit, hwm, hbm2, hpre⟩
        · exact Or.inl hmb
        · refine Or.inr ⟨r :: pre, post, by simp [hsplit], hwm, hbm2, ?_⟩
          intro q hq
          rcases List.mem_cons.mp hq with rfl | hq
          · intro hqt; rw [hr] at hqt; cases hqt
          · exact hpre q hq
    | true =>
      by_cases hlt : b.score < r.score
      · rcases ih r with ⟨m, hm, hrm, hall, hdisj⟩
        refine ⟨m, ?_, le_of_lt (lt_of_lt_of_le hlt hrm), ?_, ?_⟩
        · rw [mvpPick, if_pos hr, if_pos hlt]
          exact hm
        · intro q hq hqt
          rcases List.mem_cons.mp hq with rfl | hq
          · exact hrm
          · exact hall q hq hqt
        · rcases hdisj with hmr | ⟨pre, post, hsplit, hwm, hrm2, hpre⟩
          · subst hmr
            exact Or.inr ⟨[], rs, rfl, hr, hlt, by simp⟩
          · refine Or.inr ⟨r :: pre, post, by simp [hsplit], hwm,
              lt_trans hlt hrm2, ?_⟩
            intro q hq
            rcases List.mem_cons.mp hq with rfl | hq
            · exact fun _ => hrm2
            · exact hpre q hq
      · rcases ih b with ⟨m, hm, hbm, hall, hdisj⟩
        refine ⟨m, ?_, hbm, ?_, ?_⟩
        · rw [mvpPick, if_pos hr, if_neg hlt]
          exact hm
        · intro q hq hqt
          rcases List.mem_cons.mp hq with rfl | hq
          · exact le_trans (le_of_not_lt hlt) hbm
          · exact hall q hq hqt
        · rcases hdisj with hmb | ⟨pre, post, hsplit, hwm, hbm2, hpre⟩
          · exact Or.inl hmb
          · refine Or.inr ⟨r :: pre, post, by simp [hsplit], hwm, hbm2, ?_⟩
            intro q hq
            rcases List.mem_cons.mp hq with rfl | hq
            · exact fun _ => lt_of_le_of_lt (le_of_not_lt hlt) hbm2
            · exact hpre q hq

/-- C4: the MvpResolver awards no MVP to a group with no winning row;
for a group with at least one WIN row it selects the first row in
left-to-right encounter order whose score equals the maximum score among
the WIN rows (no secondary tie-break key); in particular a winning group
with scores `[390, 682, 682]` yields the second entry, not the third. -/
theorem mvpResolve_first_max (g : List MatchRow) :
    ((∀ r ∈ g, isWinResult r.result = false) → mvpResolve g = none) ∧
    ((∃ r ∈ g, isWinResult r.result = true) →
      ∃ pre m post, g = pre ++ m :: post ∧ mvpResolve g = some m ∧
        isWinResult m.result = true ∧
        (∀ q ∈ g, isWinResult q.result = true → q.score ≤ m.score) ∧
        (∀ q ∈ pre, isWinResult q.result = true → q.score < m.score)) ∧
    (∀ a b c : MatchRow, isWinResult a.result = true → isWinResult b.result = true →
      isWinResult c.result = true → a.score = 390 → b.score = 682 → c.score = 682 →
      mvpResolve [a, b, c] = some b) := by
  refine ⟨mvpPick_no_win g, ?_, ?_⟩
  · intro hw
    rcases exists_first_win g hw with ⟨l0, w, rs, hsplit, hl0, hww⟩
    rcases mvpPick_some_spec rs w with ⟨m, hm, hwm, hall, hdisj⟩
    have hres : mvpResolve g = some m := by
      rw [mvpResolve, hsplit, mvpPick_skip l0 (w :: rs) hl0, mvpPick, if_pos hww]
      exact hm
    rcases hdisj with rfl | ⟨pre, post, hsplit2, hwm2, hwlt, hpre⟩
    · refine ⟨l0, m, rs, hsplit, hres, hww, ?_, ?_⟩
      · intro q hq hqt
        rw [hsplit] at hq
        rcases List.mem_append.mp hq with hq | hq
        · rw [hl0 q hq] at hqt; cases hqt
        · rcases List.mem_cons.mp hq with rfl | hq
          · exact le_refl _
          · exact hall q hq hqt
      · intro q hq hqt
        rw [hl0 q hq] at hqt
        cases hqt
    · refine ⟨l0 ++ w :: pre, m, post, ?_, hres, hwm2, ?_, ?_⟩
      · rw [hsplit, hsplit2]
        simp
      · intro q hq hqt
        rw [hsplit] at hq
        rcases List.mem_append.mp hq with hq | hq
        · rw [hl0 q hq] at hqt; cases hqt
        · rcases List.mem_cons.mp hq with rfl | hq
          · exact le_of_lt hwlt
          · exact hall q hq hqt
      · intro q hq hqt
        rcases List.mem_append.mp hq with hq | hq
        · rw [hl0 q hq] at hqt; cases hqt
        · rcases List.mem_cons.mp hq with rfl | hq
          · exact hwlt
          · exact hpre q hq hqt
  · intro a b c ha hb hc hsa hsb hsc
    rw [mvpResolve, mvpPick, if_pos ha, mvpPick, if_pos hb,
      if_pos (by rw [hsa, hsb]; exact by norm_num), mvpPick, if_pos hc,
      if_neg (by rw [hsb, hsc]; exact lt_irrefl _), mvpPick]

theorem mvpResolve_first_max_witness :
    (∃ r ∈ [(⟨"A", "Orange", 0, 0, 0, 0, 0, 390, "WIN", "t1", "p1"⟩ : MatchRow),
            ⟨"B", "Orange", 0, 0, 0, 0, 0, 682, "WIN", "t1", "p2"⟩,
            ⟨"C", "Orange", 0, 0, 0, 0, 0, 682, "WIN", "t1", "p3"⟩],
      isWinResult r.result = true) ∧
    mvpResolve [(⟨"A", "Orange", 0, 0, 0, 0, 0, 390, "WIN", "t1", "p1"⟩ : MatchRow),
      ⟨"B", "Orange", 0, 0, 0, 0, 0, 682, "WIN", "t1", "p2"⟩,
      ⟨"C", "Orange", 0, 0, 0, 0, 0, 682, "WIN", "t1", "p3"⟩] =
      some ⟨"B", "Orange", 0, 0, 0, 0, 0, 682, "WIN", "t1", "p2"⟩ ∧
    (∀ r ∈ ([(⟨"D", "Blue", 0, 0, 0, 0, 0, 500, "LOSS", "t2", "p4"⟩ : MatchRow)]),
      isWinResult r.result = false) ∧
    mvpResolve [(⟨"D", "Blue", 0, 0, 0, 0, 0, 500, "LOSS", "t2", "p4"⟩ : MatchRow)] = none := by
  refine ⟨by decide, ?_, by decide, ?_⟩
  · exact (mvpResolve_first_max
      [⟨"A", "Orange", 0, 0, 0, 0, 0, 390, "WIN", "t1", "p1"⟩,
       ⟨"B", "Orange", 0, 0, 0, 0, 0, 682, "WIN", "t1", "p2"⟩,
       ⟨"C", "Orange", 0, 0, 0, 0, 0, 682, "WIN", "t1", "p3"⟩]).2.2
      ⟨"A", "Orange", 0, 0, 0, 0, 0, 390, "WIN", "t1", "p1"⟩
      ⟨"B", "Orange", 0, 0, 0, 0, 0, 682, "WIN", "t1", "p2"⟩
      ⟨"C", "Orange", 0, 0, 0, 0, 0, 682, "WIN", "t1", "p3"⟩
      (by decide) (by decide) (by decide) rfl rfl rfl
  · exact (mvpResolve_first_max
      [⟨"D", "Blue", 0, 0, 0, 0, 0, 500, "LOSS", "t2", "p4"⟩]).1 (by decide)

theorem reconcile_credited_noop (cm : ColorMap) (rows : List MatchRow)
    (t team res : String)
    (H : ∀ r ∈ rows, r.matchTimestamp = t ∧ lookupColor cm r.teamColor = some team ∧
      jsToLower r.result = res)
    (acc : TeamStats × List CreditKey) (hk : ((t, team, res) : CreditKey) ∈ acc.2) :
    rows.foldl (reconcileStep cm) acc = acc := by
  induction rows generalizing acc with
  | nil => rfl
  | cons r rs ih =>
    rcases H r (List.mem_cons_self r rs) with ⟨ht, hc, hlow⟩
    have hstep : reconcileStep cm acc r = acc := by
      simp only [reconcileStep, hc]
      rw [if_pos (by rw [ht, hlow]; exact hk)]
    rw [List.foldl_cons, hstep]
    exact ih (fun q hq => H q (List.mem_cons_of_mem r hq)) acc hk

/-- C2: exactly-once team credit: for a batch of N ≥ 1 admitted rows
that all carry the same match timestamp, all resolve (through the
run-constant colour-to-team assignment) to the same team and all carry
the same result, the TeamReconciler bumps that team's corresponding
counter by exactly 1 — not N — leaving the other counter unchanged; the
per-run already-credited set keyed by
`(matchTimestamp, assignedTeam, result)` blocks every row after the
first. -/
theorem teamReconcile_exactly_once (cm : ColorMap) (teams : TeamStats)
    (rows : List MatchRow) (t team res : String)
    (hne : rows ≠ [])
    (H : ∀ r ∈ rows, r.matchTimestamp = t ∧ lookupColor cm r.teamColor = some team ∧
      jsToLower r.result = res)
    (hw : 0 ≤ ((lookupTeam teams team).getD ⟨0, 0⟩).wins)
    (hl : 0 ≤ ((lookupTeam teams team).getD ⟨0, 0⟩).losses) :
    (res = "win" →
      ((lookupTeam (teamReconcile cm teams rows) team).getD ⟨0, 0⟩).wins
        = ((lookupTeam teams team).getD ⟨0, 0⟩).wins + 1 ∧
      ((lookupTeam (teamReconcile cm teams rows) team).getD ⟨0, 0⟩).losses
        = ((lookupTeam teams team).getD ⟨0, 0⟩).losses) ∧
    (res ≠ "win" →
      ((lookupTeam (teamReconcile cm teams rows) team).getD ⟨0, 0⟩).wins
        = ((lookupTeam teams team).getD ⟨0, 0⟩).wins ∧
      ((lookupTeam (teamReconcile cm teams rows) team).getD ⟨0, 0⟩).losses
        = ((lookupTeam teams team).getD ⟨0, 0⟩).losses + 1) := by
  rcases rows with _ | ⟨r, rs⟩
  · exact absurd rfl hne
  rcases H r (List.mem_cons_self r rs) with ⟨ht, hc, hlow⟩
  constructor
  · intro hwin
    have hwr : isWinResult r.result = true := by
      rw [isWinResult, hlow, hwin]
      exact decide_eq_true rfl
    have hstep : reconcileStep cm (teams, []) r =
        ((updateTeamStats teams team 1 0).1, [(t, team, res)]) := by
      simp only [reconcileStep, hc]
      rw [if_neg (by simp), if_pos hwr, ht, hlow]
    have hfold : (r :: rs).foldl (reconcileStep cm) (teams, []) =
        ((updateTeamStats teams team 1 0).1, [(t, team, res)]) := by
      rw [List.foldl_cons, hstep]
      exact reconcile_credited_noop cm rs t team res
        (fun q hq => H q (List.mem_cons_of_mem r hq)) _ (List.mem_singleton.mpr rfl)
    rw [teamReconcile, hfold]
    simp only [updateTeamStats, lookupTeam_setTeam_same, Option.getD_some]
    constructor
    · exact max_eq_right (by omega)
    · rw [add_zero]
      exact max_eq_right hl
  · intro hwin
    have hwr : isWinResult r.result = false := by
      rw [isWinResult, hlow]
      exact decide_eq_false hwin
    have hstep : reconcileStep cm (teams, []) r =
        ((updateTeamStats teams team 0 1).1, [(t, team, res)]) := by
      simp only [reconcileStep, hc]
      rw [if_neg (by simp), if_neg (by rw [hwr]; exact fun h => nomatch h), ht, hlow]
    have hfold : (r :: rs).foldl (reconcileStep cm) (teams, []) =
        ((updateTeamStats teams team 0 1).1, [(t, team, res)]) := by
      rw [List.foldl_cons, hstep]
      exact reconcile_credited_noop cm rs t team res
        (fun q hq => H q (List.mem_cons_of_mem r hq)) _ (List.mem_singleton.mpr rfl)
    rw [teamReconcile, hfold]
    simp only [updateTeamStats, lookupTeam_setTeam_same, Option.getD_some]
    constructor
    · rw [add_zero]
      exact max_eq_right hw
    · exact max_eq_right (by omega)

theorem teamReconcile_exactly_once_witness :
    ([(⟨"A", "Orange", 2, 0, 0, 0, 0, 390, "WIN", "t1", "p1"⟩ : MatchRow),
      ⟨"B", "Orange", 1, 0, 0, 0, 0, 200, "WIN", "t1", "p2"⟩] ≠ ([] : List MatchRow)) ∧
    (∀ r ∈ [(⟨"A", "Orange", 2, 0, 0, 0, 0, 390, "WIN", "t1", "p1"⟩ : MatchRow),
      ⟨"B", "Orange", 1, 0, 0, 0, 0, 200, "WIN", "t1", "p2"⟩],
      r.matchTimestamp = "t1" ∧ lookupColor [("Orange", "Team1")] r.teamColor = some "Team1" ∧
      jsToLower r.result = "win") ∧
    ("win" = "win" →
      ((lookupTeam (teamReconcile [("Orange", "Team1")] [("Team1", ⟨2, 1⟩)]
          [(⟨"A", "Orange", 2, 0, 0, 0, 0, 390, "WIN", "t1", "p1"⟩ : MatchRow),
           ⟨"B", "Orange", 1, 0, 0, 0, 0, 200, "WIN", "t1", "p2"⟩]) "Team1").getD ⟨0, 0⟩).wins
        = ((lookupTeam ([("Team1", ⟨2, 1⟩)] : TeamStats) "Team1").getD ⟨0, 0⟩).wins + 1 ∧
      ((lookupTeam (teamReconcile [("Orange", "Team1")] [("Team1", ⟨2, 1⟩)]
          [(⟨"A", "Orange", 2, 0, 0, 0, 0, 390, "WIN", "t1", "p1"⟩ : MatchRow),
           ⟨"B", "Orange", 1, 0, 0, 0, 0, 200, "WIN", "t1", "p2"⟩]) "Team1").getD ⟨0, 0⟩).losses
        = ((lookupTeam ([("Team1", ⟨2, 1⟩)] : TeamStats) "Team1").getD ⟨0, 0⟩).losses) :=
  ⟨by decide, by decide,
    (teamReconcile_exactly_once [("Orange", "Team1")] [("Team1", ⟨2, 1⟩)]
      [⟨"A", "Orange", 2, 0, 0, 0, 0, 390, "WIN", "t1", "p1"⟩,
       ⟨"B", "Orange", 1, 0, 0, 0, 0, 200, "WIN", "t1", "p2"⟩] "t1" "Team1" "win"
      (by decide) (by decide) (by decide) (by decide)).1⟩

theorem applyStatsAdd_mono (stats : List (String × Int))
    (hnn : ∀ kv ∈ stats, 0 ≤ kv.2) (p : JsObj) (k : String) (n : Int)
    (hk : objGet p k = some (JsVal.num n)) :
    ∃ m, objGet (applyStatsAdd p stats) k = some (JsVal.num m) ∧ n ≤ m := by
  induction stats generalizing p n with
  | nil => exact ⟨n, hk, le_refl n⟩
  | cons kv rest ih =>
    have hrest : ∀ q ∈ rest, 0 ≤ q.2 := fun q hq => hnn q (List.mem_cons_of_mem kv hq)
    cases hv : objGet p kv.1 with
    | none =>
      rw [applyStatsAdd, hv]
      exact ih hrest p n hk
    | some v =>
      cases v with
      | str s =>
        rw [applyStatsAdd, hv]
        exact ih hrest p n hk
      | num n0 =>
        rw [applyStatsAdd, hv]
        by_cases hkk : kv.1 = k
        · subst hkk
          rw [hv] at hk
          have hn0 : n0 = n := by
            injection hk with hk2
            injection hk2
          subst hn0
          rcases ih hrest (objSet p kv.1 (JsVal.num (n0 + kv.2))) (n0 + kv.2)
            (objGet_objSet_same p kv.1 _) with ⟨m, hm, hle⟩
          exact ⟨m, hm, le_trans (by have := hnn kv (List.mem_cons_self kv rest); omega) hle⟩
        · have hpres : objGet (objSet p kv.1 (JsVal.num (n0 + kv.2))) k =
              some (JsVal.num n) := by
            rw [objGet_objSet_ne p kv.1 k _ (fun h => hkk h.symm)]
            exact hk
          exact ih hrest _ n hpres

theorem applyStatsAdd_notMem (stats : List (String × Int)) (p : JsObj) (k : String)
    (hk : k ∉ stats.map Prod.fst) :
    objGet (applyStatsAdd p stats) k = objGet p k := by
  induction stats generalizing p with
  | nil => rfl
  | cons kv rest ih =>
    have hk1 : kv.1 ≠ k := fun h => hk (by rw [← h]; exact List.mem_map_of_mem Prod.fst (List.mem_cons_self kv rest))
    have hkr : k ∉ rest.map Prod.fst := fun h => hk (by
      rcases List.mem_map.mp h with ⟨q, hq, hqk⟩
      exact List.mem_map.mpr ⟨q, List.mem_cons_of_mem kv hq, hqk⟩)
    cases hv : objGet p kv.1 with
    | none =>
      rw [applyStatsAdd, hv]
      exact ih p hkr
    | some v =>
      cases v with
      | str s =>
        rw [applyStatsAdd, hv]
        exact ih p hkr
      | num n0 =>
        rw [applyStatsAdd, hv, ih _ hkr]
        exact objGet_objSet_ne p kv.1 k _ (fun h => hk1 h.symm)

theorem applyStatsSub_notMem (stats : List (String × Int)) (p : JsObj) (k : String)
    (hk : k ∉ stats.map Prod.fst) :
    objGet (applyStatsSub p stats) k = objGet p k := by
  induction stats generalizing p with
  | nil => rfl
  | cons kv rest ih =>
    have hk1 : kv.1 ≠ k := fun h => hk (by rw [← h]; exact List.mem_map_of_mem Prod.fst (List.mem_cons_self kv rest))
    have hkr : k ∉ rest.map Prod.fst := fun h => hk (by
      rcases List.mem_map.mp h with ⟨q, hq, hqk⟩
      exact List.mem_map.mpr ⟨q, List.mem_cons_of_mem kv hq, hqk⟩)
    cases hv : objGet p kv.1 with
    | none =>
      rw [applyStatsSub, hv]
      exact ih p hkr
    | some v =>
      cases v with
      | str s =>
        rw [applyStatsSub, hv]
        exact ih p hkr
      | num n0 =>
        rw [applyStatsSub, hv, ih _ hkr]
        exact objGet_objSet_ne p kv.1 k _ (fun h => hk1 h.symm)

theorem applyStatsAdd_nonNum (stats : List (String × Int)) (p : JsObj) (k : String)
    (hk : ∀ n, objGet p k ≠ some (JsVal.num n)) :
    objGet (applyStatsAdd p stats) k = objGet p k := by
  induction stats generalizing p with
  | nil => rfl
  | cons kv rest ih =>
    cases hv : objGet p kv.1 with
    | none =>
      rw [applyStatsAdd, hv]
      exact ih p hk
    | some v =>
      cases v with
      | str s =>
        rw [applyStatsAdd, hv]
        exact ih p hk
      | num n0 =>
        have hk1 : kv.1 ≠ k := by
          intro h
          exact hk n0 (by rw [← h]; exact hv)
        rw [applyStatsAdd, hv]
        have hpres : objGet (objSet p kv.1 (JsVal.num (n0 + kv.2))) k = objGet p k :=
          objGet_objSet_ne p kv.1 k _ (fun h => hk1 h.symm)
        rw [ih _ (by rw [hpres]; exact hk), hpres]

theorem applyStatsAdd_mem (stats : List (String × Int)) (p : JsObj)
    (hnd : (stats.map Prod.fst).Nodup) (kv : String × Int) (hkv : kv ∈ stats)
    (n : Int) (hk : objGet p kv.1 = some (JsVal.num n)) :
    objGet (applyStatsAdd p stats) kv.1 = some (JsVal.num (n + kv.2)) := by
  induction stats generalizing p with
  | nil => cases hkv
  | cons kv0 rest ih =>
    have hnd0 : kv0.1 ∉ rest.map Prod.fst := by
      rw [List.map_cons, List.nodup_cons] at hnd
      exact hnd.1
    have hndr : (rest.map Prod.fst).Nodup := by
      rw [List.map_cons, List.nodup_cons] at hnd
      exact hnd.2
    rcases List.mem_cons.mp hkv with rfl | hkv2
    · rw [applyStatsAdd, hk]
      rw [applyStatsAdd_notMem rest _ kv.1 hnd0]
      exact objGet_objSet_same p kv.1 _
    · have hne : kv0.1 ≠ kv.1 := by
        intro h
        exact hnd0 (h ▸ List.mem_map_of_mem Prod.fst hkv2)
      cases hv : objGet p kv0.1 with
      | none =>
        rw [applyStatsAdd, hv]
        exact ih p hndr hkv2 hk
      | some v =>
        cases v with
        | str s =>
          rw [applyStatsAdd, hv]
          exact ih p hndr hkv2 hk
        | num n0 =>
          rw [applyStatsAdd, hv]
          refine ih _ hndr hkv2 ?_
          rw [objGet_objSet_ne p kv0.1 kv.1 _ (fun h => hne h.symm)]
          exact hk

theorem applyStatsSub_mem (stats : List (String × Int)) (p : JsObj)
    (hnd : (stats.map Prod.fst).Nodup) (kv : String × Int) (hkv : kv ∈ stats)
    (n : Int) (hk : objGet p kv.1 = some (JsVal.num n)) :
    objGet (applyStatsSub p stats) kv.1 = some (JsVal.num (max 0 (n - kv.2))) := by
  induction stats generalizing p with
  | nil => cases hkv
  | cons kv0 rest ih =>
    have hnd0 : kv0.1 ∉ rest.map Prod.fst := by
      rw [List.map_cons, List.nodup_cons] at hnd
      exact hnd.1
    have hndr : (rest.map Prod.fst).Nodup := by
      rw [List.map_cons, List.nodup_cons] at hnd
      exact hnd.2
    rcases List.mem_cons.mp hkv with rfl | hkv2
    · rw [applyStatsSub, hk]
      rw [applyStatsSub_notMem rest _ kv.1 hnd0]
      exact objGet_objSet_same p kv.1 _
    · have hne : kv0.1 ≠ kv.1 := by
        intro h
        exact hnd0 (h ▸ List.mem_map_of_mem Prod.fst hkv2)
      cases hv : objGet p kv0.1 with
      | none =>
        rw [applyStatsSub, hv]
        exact ih p hndr hkv2 hk
      | some v =>
        cases v with
        | str s =>
          rw [applyStatsSub, hv]
          exact ih p hndr hkv2 hk
        | num n0 =>
          rw [applyStatsSub, hv]
          refine ih _ hndr hkv2 ?_
          rw [objGet_objSet_ne p kv0.1 kv.1 _ (fun h => hne h.symm)]
          exact hk

theorem updateFirstWhere_eq_some (pred : JsObj → Bool) (f : JsObj → JsObj)
    (l l' : List JsObj) (h : updateFirstWhere pred f l = some l') :
    ∃ pre p post, l = pre ++ p :: post ∧ l' = pre ++ f p :: post ∧
      pred p = true ∧ ∀ q ∈ pre, pred q = false := by
  induction l generalizing l' with
  | nil => cases h
  | cons p ps ih =>
    by_cases hp : pred p = true
    · rw [updateFirstWhere, if_pos hp] at h
      injection h with h
      exact ⟨[], p, ps, rfl, h.symm, hp, by simp⟩
    · have hpf : pred p = false := by
        cases hb : pred p
        · rfl
        · exact absurd hb hp
      rw [updateFirstWhere, if_neg hp] at h
      cases hu : updateFirstWhere pred f ps with
      | none =>
        rw [hu] at h
        cases h
      | some qs =>
        rw [hu] at h
        injection h with h
        rcases ih qs hu with ⟨pre, q, post, hsplit, hq, hqt, hpre⟩
        refine ⟨p :: pre, q, post, by simp [hsplit], by simp [← h, hq], hqt, ?_⟩
        intro x hx
        rcases List.mem_cons.mp hx with rfl | hx
        · exact hpf
        · exact hpre x hx

/-- C7: the per-account ledger is monotonically non-decreasing under the
additive update: for any stats delta whose values are all non-negative,
after `updatePlayerStats` succeeds every numeric stat field (every
numeric field other than the `updatedAt` bookkeeping timestamp) of every
player in the store is at least its value before the call. -/
theorem updatePlayerStats_monotone (players players' : List JsObj) (id now : String)
    (stats : List (String × Int))
    (hnn : ∀ kv ∈ stats, 0 ≤ kv.2)
    (hok : updatePlayerStats players id stats now = Except.ok players') :
    List.Forall₂
      (fun p q => ∀ k n, k ≠ "updatedAt" → objGet p k = some (JsVal.num n) →
        ∃ m, objGet q k = some (JsVal.num m) ∧ n ≤ m)
      players players' := by
  rw [updatePlayerStats] at hok
  cases hu : updateFirstWhere (isPlayerFor id)
      (fun p => objSet (applyStatsAdd p stats) "updatedAt" (JsVal.str now)) players with
  | none =>
    rw [hu] at hok
    cases hok
  | some ps =>
    rw [hu] at hok
    injection hok with hok
    subst hok
    rcases updateFirstWhere_eq_some _ _ _ _ hu with ⟨pre, p, post, hsplit, hps, _, _⟩
    subst hsplit
    subst hps
    have hrefl : ∀ (l : List JsObj), List.Forall₂
        (fun p q => ∀ k n, k ≠ "updatedAt" → objGet p k = some (JsVal.num n) →
          ∃ m, objGet q k = some (JsVal.num m) ∧ n ≤ m) l l := by
      intro l
      exact List.forall₂_same.mpr fun x _ k n _ hk => ⟨n, hk, le_refl n⟩
    refine List.rel_append (hrefl pre) (List.Forall₂.cons ?_ (hrefl post))
    intro k n hku hk
    rcases applyStatsAdd_mono stats hnn p k n hk with ⟨m, hm, hle⟩
    exact ⟨m, by rw [objGet_objSet_ne _ _ _ _ hku]; exact hm, hle⟩

theorem updatePlayerStats_monotone_witness :
    (∀ kv ∈ [("goals", (2 : Int)), ("gamesPlayed", 1)], 0 ≤ kv.2) ∧
    updatePlayerStats [[("discordId", JsVal.str "id1"), ("goals", JsVal.num 3),
        ("gamesPlayed", JsVal.num 7), ("updatedAt", JsVal.str "old")]]
      "id1" [("goals", 2), ("gamesPlayed", 1)] "t" =
      Except.ok [[("discordId", JsVal.str "id1"), ("goals", JsVal.num 5),
        ("gamesPlayed", JsVal.num 8), ("updatedAt", JsVal.str "t")]] ∧
    List.Forall₂
      (fun p q => ∀ k n, k ≠ "updatedAt" → objGet p k = some (JsVal.num n) →
        ∃ m, objGet q k = some (JsVal.num m) ∧ n ≤ m)
      [[("discordId", JsVal.str "id1"), ("goals", JsVal.num 3),
        ("gamesPlayed", JsVal.num 7), ("updatedAt", JsVal.str "old")]]
      [[("discordId", JsVal.str "id1"), ("goals", JsVal.num 5),
        ("gamesPlayed", JsVal.num 8), ("updatedAt", JsVal.str "t")]] :=
  ⟨by decide, by rfl,
    updatePlayerStats_monotone
      [[("discordId", JsVal.str "id1"), ("goals", JsVal.num 3),
        ("gamesPlayed", JsVal.num 7), ("updatedAt", JsVal.str "old")]]
      [[("discordId", JsVal.str "id1"), ("goals", JsVal.num 5),
        ("gamesPlayed", JsVal.num 8), ("updatedAt", JsVal.str "t")]]
      "id1" "t" [("goals", 2), ("gamesPlayed", 1)] (by decide) (by rfl)⟩

/-- C8: `updatePlayerStats` merges the delta by dynamic field copying
with a frame condition: exactly the delta keys that exist on the stored
player as numeric fields are incremented; delta keys the player lacks,
or whose stored value is a string, are left untouched; every other field
except the refreshed `updatedAt` is unchanged; and every other player in
the store is unchanged (the surrounding list is identical outside the
updated element). -/
theorem updatePlayerStats_frame (players players' : List JsObj) (id now : String)
    (stats : List (String × Int))
    (hnd : (stats.map Prod.fst).Nodup)
    (hok : updatePlayerStats players id stats now = Except.ok players') :
    ∃ pre p q post,
      players = pre ++ p :: post ∧
      players' = pre ++ q :: post ∧
      isPlayerFor id p = true ∧
      objGet q "updatedAt" = some (JsVal.str now) ∧
      (∀ k, k ∉ stats.map Prod.fst → k ≠ "updatedAt" → objGet q k = objGet p k) ∧
      (∀ kv ∈ stats, kv.1 ≠ "updatedAt" →
        ((∀ n, objGet p kv.1 ≠ some (JsVal.num n)) → objGet q kv.1 = objGet p kv.1) ∧
        (∀ n, objGet p kv.1 = some (JsVal.num n) →
          objGet q kv.1 = some (JsVal.num (n + kv.2)))) := by
  rw [updatePlayerStats] at hok
  cases hu : updateFirstWhere (isPlayerFor id)
      (fun p => objSet (applyStatsAdd p stats) "updatedAt" (JsVal.str now)) players with
  | none =>
    rw [hu] at hok
    cases hok
  | some ps =>
    rw [hu] at hok
    injection hok with hok
    subst hok
    rcases updateFirstWhere_eq_some _ _ _ _ hu with ⟨pre, p, post, hsplit, hps, hpt, _⟩
    refine ⟨pre, p, objSet (applyStatsAdd p stats) "updatedAt" (JsVal.str now), post,
      hsplit, hps, hpt, objGet_objSet_same _ _ _, ?_, ?_⟩
    · intro k hknot hku
      rw [objGet_objSet_ne _ _ _ _ hku]
      exact applyStatsAdd_notMem stats p k hknot
    · intro kv hkv hku
      constructor
      · intro hnon
        rw [objGet_objSet_ne _ _ _ _ hku]
        exact applyStatsAdd_nonNum stats p kv.1 hnon
      · intro n hk
        rw [objGet_objSet_ne _ _ _ _ hku]
        exact applyStatsAdd_mem stats p hnd kv hkv n hk

theorem updatePlayerStats_frame_witness :
    ((([("assists", (4 : Int)), ("saves", 2), ("missing", 9)]).map Prod.fst).Nodup ∧
     updatePlayerStats [[("discordId", JsVal.str "id2"), ("team", JsVal.str "A-Team"),
         ("assists", JsVal.num 6), ("updatedAt", JsVal.str "old")]]
       "id2" [("assists", 4), ("saves", 2), ("missing", 9)] "t2" =
       Except.ok [[("discordId", JsVal.str "id2"), ("team", JsVal.str "A-Team"),
         ("assists", JsVal.num 10), ("updatedAt", JsVal.str "t2")]]) ∧
    (∃ pre p q post,
      ([[("discordId", JsVal.str "id2"), ("team", JsVal.str "A-Team"),
         ("assists", JsVal.num 6), ("updatedAt", JsVal.str "old")]] : List JsObj) =
        pre ++ p :: post ∧
      ([[("discordId", JsVal.str "id2"), ("team", JsVal.str "A-Team"),
         ("assists", JsVal.num 10), ("updatedAt", JsVal.str "t2")]] : List JsObj) =
        pre ++ q :: post ∧
      isPlayerFor "id2" p = true ∧
      objGet q "updatedAt" = some (JsVal.str "t2") ∧
      (∀ k, k ∉ ([("assists", (4 : Int)), ("saves", 2), ("missing", 9)]).map Prod.fst →
        k ≠ "updatedAt" → objGet q k = objGet p k) ∧
      (∀ kv ∈ [("assists", (4 : Int)), ("saves", 2), ("missing", 9)], kv.1 ≠ "updatedAt" →
        ((∀ n, objGet p kv.1 ≠ some (JsVal.num n)) → objGet q kv.1 = objGet p kv.1) ∧
        (∀ n, objGet p kv.1 = some (JsVal.num n) →
          objGet q kv.1 = some (JsVal.num (n + kv.2))))) :=
  ⟨⟨by decide, by rfl⟩,
    updatePlayerStats_frame
      [[("discordId", JsVal.str "id2"), ("team", JsVal.str "A-Team"),
        ("assists", JsVal.num 6), ("updatedAt", JsVal.str "old")]]
      [[("discordId", JsVal.str "id2"), ("team", JsVal.str "A-Team"),
        ("assists", JsVal.num 10), ("updatedAt", JsVal.str "t2")]]
      "id2" "t2" [("assists", 4), ("saves", 2), ("missing", 9)] (by decide) (by rfl)⟩

/-- C9: `removePlayerStats` clamps every subtraction at zero: after a
successful call, each numeric field of the targeted player that is named
in the delta equals `max 0 (oldValue - deltaValue)`, so no stat field
named in the delta is ever left negative, even when the removal amount
exceeds the current total; other players are untouched. -/
theorem removePlayerStats_clamped (players players' : List JsObj) (id now : String)
    (stats : List (String × Int))
    (hnd : (stats.map Prod.fst).Nodup)
    (hok : removePlayerStats players id stats now = Except.ok players') :
    ∃ pre p q post,
      players = pre ++ p :: post ∧
      players' = pre ++ q :: post ∧
      isPlayerFor id p = true ∧
      (∀ kv ∈ stats, kv.1 ≠ "updatedAt" → ∀ n, objGet p kv.1 = some (JsVal.num n) →
        objGet q kv.1 = some (JsVal.num (max 0 (n - kv.2))) ∧ 0 ≤ max 0 (n - kv.2)) := by
  rw [removePlayerStats] at hok
  cases hu : updateFirstWhere (isPlayerFor id)
      (fun p => objSet (applyStatsSub p stats) "updatedAt" (JsVal.str now)) players with
  | none =>
    rw [hu] at hok
    cases hok
  | some ps =>
    rw [hu] at hok
    injection hok with hok
    subst hok
    rcases updateFirstWhere_eq_some _ _ _ _ hu with ⟨pre, p, post, hsplit, hps, hpt, _⟩
    refine ⟨pre, p, objSet (applyStatsSub p stats) "updatedAt" (JsVal.str now), post,
      hsplit, hps, hpt, ?_⟩
    intro kv hkv hku n hk
    refine ⟨?_, le_max_left 0 _⟩
    rw [objGet_objSet_ne _ _ _ _ hku]
    exact applyStatsSub_mem stats p hnd kv hkv n hk

theorem removePlayerStats_clamped_witness :
    ((([("saves", (50 : Int))]).map Prod.fst).Nodup ∧
     removePlayerStats [[("discordId", JsVal.str "id3"), ("saves", JsVal.num 7),
         ("updatedAt", JsVal.str "old")]] "id3" [("saves", 50)] "t3" =
       Except.ok [[("discordId", JsVal.str "id3"), ("saves", JsVal.num 0),
         ("updatedAt", JsVal.str "t3")]]) ∧
    (∃ pre p q post,
      ([[("discordId", JsVal.str "id3"), ("saves", JsVal.num 7),
         ("updatedAt", JsVal.str "old")]] : List JsObj) = pre ++ p :: post ∧
      ([[("discordId", JsVal.str "id3"), ("saves", JsVal.num 0),
         ("updatedAt", JsVal.str "t3")]] : List JsObj) = pre ++ q :: post ∧
      isPlayerFor "id3" p = true ∧
      (∀ kv ∈ [("saves", (50 : Int))], kv.1 ≠ "updatedAt" →
        ∀ n, objGet p kv.1 = some (JsVal.num n) →
          objGet q kv.1 = some (JsVal.num (max 0 (n - kv.2))) ∧ 0 ≤ max 0 (n - kv.2))) :=
  ⟨⟨by decide, by rfl⟩,
    removePlayerStats_clamped
      [[("discordId", JsVal.str "id3"), ("saves", JsVal.num 7),
        ("updatedAt", JsVal.str "old")]]
      [[("discordId", JsVal.str "id3"), ("saves", JsVal.num 0),
        ("updatedAt", JsVal.str "t3")]]
      "id3" "t3" [("saves", 50)] (by decide) (by rfl)⟩

theorem dedupFilter_all_dup (rows : List MatchRow) (dd : List String)
    (h : ∀ r ∈ rows, dedupKey r ∈ dd) :
    dedupFilter dd rows = ⟨[], dd, rows.length⟩ := by
  induction rows with
  | nil => rfl
  | cons r rs ih =>
    rw [dedupFilter, if_pos (h r (List.mem_cons_self r rs)),
      ih fun q hq => h q (List.mem_cons_of_mem r hq)]
    rfl

theorem dedupFilter_dedup_mono (rows : List MatchRow) (dd : List String) (k : String)
    (hk : k ∈ dd) : k ∈ (dedupFilter dd rows).dedup := by
  induction rows generalizing dd with
  | nil => exact hk
  | cons r rs ih =>
    by_cases h : dedupKey r ∈ dd
    · rw [dedupFilter, if_pos h]
      exact ih dd hk
    · rw [dedupFilter, if_neg h]
      exact ih (dedupKey r :: dd) (List.mem_cons_of_mem _ hk)

theorem dedupFilter_keys_mem (rows : List MatchRow) (dd : List String) :
    ∀ r ∈ rows, dedupKey r ∈ (dedupFilter dd rows).dedup := by
  induction rows generalizing dd with
  | nil => intro r hr; cases hr
  | cons r rs ih =>
    intro q hq
    by_cases h : dedupKey r ∈ dd
    · rw [dedupFilter, if_pos h]
      rcases List.mem_cons.mp hq with rfl | hq
      · exact dedupFilter_dedup_mono rs dd _ h
      · exact ih dd q hq
    · rw [dedupFilter, if_neg h]
      rcases List.mem_cons.mp hq with rfl | hq
      · exact dedupFilter_dedup_mono rs _ _ (List.mem_cons_self _ _)
      · exact ih (dedupKey r :: dd) q hq

theorem importRun_of_all_dup (cfg : ImportConfig) (st : EngineState)
    (rows : List MatchRow) (hv : rows.all rowValid = true)
    (h : dedupFilter st.dedup rows = ⟨[], st.dedup, rows.length⟩) :
    importRun cfg st rows = (st, ⟨rows.length, rows.length, false, []⟩) := by
  rw [importRun, if_pos hv, h]
  rfl

theorem importRun_dedup_of_valid (cfg : ImportConfig) (st : EngineState)
    (rows : List MatchRow) (hv : rows.all rowValid = true) :
    (importRun cfg st rows).1.dedup = (dedupFilter st.dedup rows).dedup := by
  rw [importRun, if_pos hv]

/-- C1: importing the same export file twice is idempotent at the row
level: after a first validated run every row's dedup key is present in
the DedupIndex, so on the second run the duplicate count equals the row
count and the second run leaves the whole persisted state — dedup index,
every per-account ledger and every per-team win/loss record — exactly as
the first run left it. -/
theorem importRun_idempotent (cfg : ImportConfig) (st : EngineState)
    (rows : List MatchRow) (hv : rows.all rowValid = true) :
    (importRun cfg (importRun cfg st rows).1 rows).2.duplicates = rows.length ∧
    (importRun cfg (importRun cfg st rows).1 rows).1 = (importRun cfg st rows).1 ∧
    ∀ r ∈ rows, dedupKey r ∈ (importRun cfg st rows).1.dedup := by
  have hmem : ∀ r ∈ rows, dedupKey r ∈ (importRun cfg st rows).1.dedup := by
    rw [importRun_dedup_of_valid cfg st rows hv]
    exact dedupFilter_keys_mem rows st.dedup
  have h2 : dedupFilter (importRun cfg st rows).1.dedup rows =
      ⟨[], (importRun cfg st rows).1.dedup, rows.length⟩ :=
    dedupFilter_all_dup rows _ hmem
  have h3 := importRun_of_all_dup cfg (importRun cfg st rows).1 rows hv h2
  rw [h3]
  exact ⟨rfl, rfl, hmem⟩

theorem importRun_idempotent_witness :
    (([(⟨"A", "Orange", 2, 0, 0, 0, 0, 390, "WIN", "t1", "p1"⟩ : MatchRow)]).all rowValid = true) ∧
    ((importRun ⟨[("a", "id1")], [⟨"id1", "A", "auser"⟩], [("Orange", "Team1")], "now"⟩
        (importRun ⟨[("a", "id1")], [⟨"id1", "A", "auser"⟩], [("Orange", "Team1")], "now"⟩
          ⟨[], [[("discordId", JsVal.str "id1"), ("goals", JsVal.num 5)]], [("Team1", ⟨2, 1⟩)]⟩
          [⟨"A", "Orange", 2, 0, 0, 0, 0, 390, "WIN", "t1", "p1"⟩]).1
        [⟨"A", "Orange", 2, 0, 0, 0, 0, 390, "WIN", "t1", "p1"⟩]).2.duplicates = 1 ∧
     (importRun ⟨[("a", "id1")], [⟨"id1", "A", "auser"⟩], [("Orange", "Team1")], "now"⟩
        (importRun ⟨[("a", "id1")], [⟨"id1", "A", "auser"⟩], [("Orange", "Team1")], "now"⟩
          ⟨[], [[("discordId", JsVal.str "id1"), ("goals", JsVal.num 5)]], [("Team1", ⟨2, 1⟩)]⟩
          [⟨"A", "Orange", 2, 0, 0, 0, 0, 390, "WIN", "t1", "p1"⟩]).1
        [⟨"A", "Orange", 2, 0, 0, 0, 0, 390, "WIN", "t1", "p1"⟩]).1 =
       (importRun ⟨[("a", "id1")], [⟨"id1", "A", "auser"⟩], [("Orange", "Team1")], "now"⟩
          ⟨[], [[("discordId", JsVal.str "id1"), ("goals", JsVal.num 5)]], [("Team1", ⟨2, 1⟩)]⟩
          [⟨"A", "Orange", 2, 0, 0, 0, 0, 390, "WIN", "t1", "p1"⟩]).1 ∧
     ∀ r ∈ [(⟨"A", "Orange", 2, 0, 0, 0, 0, 390, "WIN", "t1", "p1"⟩ : MatchRow)],
       dedupKey r ∈
         (importRun ⟨[("a", "id1")], [⟨"id1", "A", "auser"⟩], [("Orange", "Team1")], "now"⟩
            ⟨[], [[("discordId", JsVal.str "id1"), ("goals", JsVal.num 5)]], [("Team1", ⟨2, 1⟩)]⟩
            [⟨"A", "Orange", 2, 0, 0, 0, 0, 390, "WIN", "t1", "p1"⟩]).1.dedup) :=
  ⟨by decide,
    importRun_idempotent ⟨[("a", "id1")], [⟨"id1", "A", "auser"⟩], [("Orange", "Team1")], "now"⟩
      ⟨[], [[("discordId", JsVal.str "id1"), ("goals", JsVal.num 5)]], [("Team1", ⟨2, 1⟩)]⟩
      [⟨"A", "Orange", 2, 0, 0, 0, 0, 390, "WIN", "t1", "p1"⟩] (by decide)⟩
